import Mathlib

/-
Verification of the GUI core of the PyGame-engine repository.

The Lean definitions below are a shallow embedding of the Python source:
  * `engine/gui/gui.py`   — `Gui` (focus/activation registry, register table),
                            `WidgetGroup` (layer-ordered fan-out), `Register`;
  * `engine/gui/widgets.py` — sliders and `NumericInput`/`TextInput` commit;
  * `engine/events.py`    — `Mouse.update` (edge detection, scroll wheel);
  * `engine/state_machine.py` — `StateMachine`.

Python sets are modelled as `Finset` together with an explicitly quantified
enumeration list where iteration order matters (CPython set iteration order
is hash-dependent and not specified by the source).  Python's stable
`sorted(key=..., reverse=True)` is modelled by a stable insertion sort.
Python `float` arithmetic is modelled exactly over `ℚ`.
-/

namespace PyGameEngine

/-! ### Stable descending sort

Models Python's `sorted(xs, key=key, reverse=True)`: the result is ordered by
descending key and elements with equal keys keep their relative order in the
input (Python's sort is stable, and `reverse=True` preserves stability). -/

/-- Insert `x` into a descending-sorted list, after every element whose key is
strictly larger, before the rest (so equal keys keep input order). -/
def insertDesc {α : Type} (key : α → ℤ) (x : α) : List α → List α
  | [] => [x]
  | y :: ys => if key x < key y then y :: insertDesc key x ys else x :: y :: ys

/-- Stable descending insertion sort by an integer key. -/
def sortDesc {α : Type} (key : α → ℤ) : List α → List α
  | [] => []
  | x :: xs => insertDesc key x (sortDesc key xs)

theorem insertDesc_perm {α : Type} (key : α → ℤ) (x : α) (l : List α) :
    (insertDesc key x l).Perm (x :: l) := by
  induction l with
  | nil => exact List.Perm.refl _
  | cons y ys ih =>
    by_cases h : key x < key y
    · simpa [insertDesc, h] using ((ih.cons y).trans (List.Perm.swap x y ys))
    · simp [insertDesc, h]

theorem sortDesc_perm {α : Type} (key : α → ℤ) (l : List α) :
    (sortDesc key l).Perm l := by
  induction l with
  | nil => exact List.Perm.refl _
  | cons x xs ih => exact (insertDesc_perm key x (sortDesc key xs)).trans (ih.cons x)

theorem mem_insertDesc {α : Type} (key : α → ℤ) (x : α) (l : List α) (z : α) :
    z ∈ insertDesc key x l ↔ z = x ∨ z ∈ l := by
  simpa using (insertDesc_perm key x l).mem_iff

theorem insertDesc_sorted {α : Type} (key : α → ℤ) (x : α) (l : List α)
    (h : l.Sorted (fun a b => key b ≤ key a)) :
    (insertDesc key x l).Sorted (fun a b => key b ≤ key a) := by
  induction l with
  | nil => simp [insertDesc]
  | cons y ys ih =>
    rw [List.sorted_cons] at h
    obtain ⟨hy, hys⟩ := h
    by_cases hxy : key x < key y
    · rw [insertDesc, if_pos hxy, List.sorted_cons]
      refine ⟨?_, ih hys⟩
      intro z hz
      rcases (mem_insertDesc key x ys z).1 hz with hzx | hzys
      · exact hzx ▸ le_of_lt hxy
      · exact hy z hzys
    · rw [insertDesc, if_neg hxy, List.sorted_cons]
      refine ⟨?_, by rw [List.sorted_cons]; exact ⟨hy, hys⟩⟩
      intro z hz
      rcases List.mem_cons.1 hz with hzy | hzys
      · exact hzy ▸ le_of_not_lt hxy
      · exact le_trans (hy z hzys) (le_of_not_lt hxy)

theorem sortDesc_sorted {α : Type} (key : α → ℤ) (l : List α) :
    (sortDesc key l).Sorted (fun a b => key b ≤ key a) := by
  induction l with
  | nil => simp [sortDesc]
  | cons x xs ih => exact insertDesc_sorted key x (sortDesc key xs) ih

/-! ### Gui focus/activation registry (`engine/gui/gui.py`, class `Gui`)

`Gui._focused` may contain both widgets and widget groups, so focusable items
are modelled as a sum of group ids and widget ids.  Group membership
(`WidgetGroup._widgets`) and layers are carried in the state so that
`is_active` and the layer-ordered dispatch can be expressed. -/

/-- An item the `Gui` can focus: a `WidgetGroup` or a `Widget`, by id. -/
inductive GItem where
  | group (g : ℕ)
  | widget (w : ℕ)
deriving DecidableEq, Repr

/-- State of `Gui` (gui.py lines 71-76): the active-group set, the focus set,
group membership and the layers read during dispatch. -/
structure Gui where
  activeGroups : Finset ℕ
  members : ℕ → Finset ℕ
  glayer : ℕ → ℤ
  wlayer : ℕ → ℤ
  focused : Finset GItem

/-- Layer of an item (`WidgetGroup.layer` / `Widget.layer`). -/
def itemLayer (st : Gui) : GItem → ℤ
  | GItem.group g => st.glayer g
  | GItem.widget w => st.wlayer w

/-- `Gui.is_active` (gui.py lines 94-98): a group is active iff it is in the
active set; a widget is active iff some active group contains it. -/
def is_active (st : Gui) : GItem → Prop
  | GItem.group g => g ∈ st.activeGroups
  | GItem.widget w => ∃ g ∈ st.activeGroups, w ∈ st.members g

instance (st : Gui) : (item : GItem) → Decidable (is_active st item)
  | GItem.group g => inferInstanceAs (Decidable (g ∈ st.activeGroups))
  | GItem.widget w => inferInstanceAs (Decidable (∃ g ∈ st.activeGroups, w ∈ st.members g))

/-- `Gui.focus_widget` (gui.py lines 114-116). -/
def focus_widget (st : Gui) (item : GItem) (overwrite : Bool) : Gui :=
  if (st.focused = ∅ ∨ overwrite = true) ∧ is_active st item then
    { st with focused := {item} }
  else st

/-- `Gui.release_widget` (gui.py lines 118-122); the optional event-handler
replay re-runs `Gui.events`, which does not modify any of the state modelled
here, so it is omitted from the state transition. -/
def release_widget (st : Gui) (item : GItem) : Gui :=
  if item ∈ st.focused then { st with focused := st.focused.erase item } else st

/-- `Gui.activate_group` (gui.py lines 108-109). -/
def activate_group (st : Gui) (groups : Finset ℕ) : Gui :=
  { st with activeGroups := st.activeGroups ∪ groups }

/-- `Gui.deactivate_group` (gui.py lines 111-112). -/
def deactivate_group (st : Gui) (groups : Finset ℕ) : Gui :=
  { st with activeGroups := st.activeGroups \ groups }

/-- The set `Gui.events` iterates over (gui.py line 125):
`active = self._focused if self._focused else self._active_groups`. -/
def dispatchTargets (st : Gui) : Finset GItem :=
  if st.focused.Nonempty then st.focused else st.activeGroups.image GItem.group

/-- `Gui.events` (gui.py lines 124-127): the order in which
`group.events(event_handler)` is delivered, given an enumeration `e` of the
target set (Python iterates the set in unspecified order and sorts it by
descending layer with a stable sort). -/
def guiEventsOrder (st : Gui) (e : List GItem) : List GItem :=
  sortDesc (itemLayer st) e

/-- One call against the `Gui` API, for reasoning about call sequences. -/
inductive GOp where
  | focus (item : GItem) (overwrite : Bool)
  | release (item : GItem)
  | activate (groups : Finset ℕ)
  | deactivate (groups : Finset ℕ)

/-- Apply one `Gui` call to a state. -/
def applyOp (st : Gui) : GOp → Gui
  | GOp.focus item overwrite => focus_widget st item overwrite
  | GOp.release item => release_widget st item
  | GOp.activate groups => activate_group st groups
  | GOp.deactivate groups => deactivate_group st groups

/-- Apply a whole call sequence, oldest call first. -/
def applyOps (st : Gui) (ops : List GOp) : Gui :=
  ops.foldl applyOp st

/-! ### Register table (`Gui.register`, gui.py lines 82-89; class `Register`)

A `Register` is a mutable cell; reference identity is made explicit with a
heap of cells indexed by allocation order.  `Gui._registers` is the table
mapping a name to the id of its cell.  A cell's content is `PyVal.none`
exactly when the Python cell holds `None`. -/

/-- A dynamic Python value as stored in a `Register`. -/
inductive PyVal where
  | none
  | num (q : ℚ)
  | bool (b : Bool)
  | str (s : String)
deriving DecidableEq, Repr

/-- Heap of `Register` cells (index = identity) plus the name table. -/
structure RegTable where
  heap : List PyVal
  table : List (String × ℕ)
deriving DecidableEq, Repr

/-- Lookup of `self._registers[name]`, as a cell id. -/
def lookupName : List (String × ℕ) → String → Option ℕ
  | [], _ => Option.none
  | p :: ps, n => if p.1 = n then some p.2 else lookupName ps n

/-- Reading `cell.value` through a cell id. -/
def readCell (st : RegTable) (i : ℕ) : PyVal :=
  st.heap.getD i PyVal.none

/-- Writing `cell.value = v` through a cell id. -/
def writeCell (st : RegTable) (i : ℕ) (v : PyVal) : RegTable :=
  { st with heap := st.heap.set i v }

/-- `Gui.register(name, value)` (gui.py lines 82-89): returns the id of the
cell handed back to the caller together with the updated table. `name = none`
is the `name is None` branch returning a fresh private cell. -/
def register (st : RegTable) (name : Option String) (value : PyVal) : ℕ × RegTable :=
  match name with
  | Option.none => (st.heap.length, { st with heap := st.heap ++ [value] })
  | some n =>
    match lookupName st.table n with
    | Option.none =>
      (st.heap.length,
        { heap := st.heap ++ [value], table := st.table ++ [(n, st.heap.length)] })
    | some i =>
      if readCell st i = PyVal.none then (i, writeCell st i value) else (i, st)

/-- Well-formedness of the table: every named cell id points into the heap. -/
def RegWF (st : RegTable) : Prop :=
  ∀ p ∈ st.table, p.2 < st.heap.length

instance (st : RegTable) : Decidable (RegWF st) :=
  inferInstanceAs (Decidable (∀ p ∈ st.table, p.2 < st.heap.length))

/-! ### WidgetGroup iteration (`gui.py` lines 210-230)

`WidgetGroup._widgets` is a Python `set`; `__iter__` sorts an (unspecified)
enumeration of it by descending widget layer, and both `events` and `render`
iterate `for widget in self`. -/

/-- `WidgetGroup.__iter__`: visit order of the member widgets, given the
layer map and an enumeration `e` of the membership set. -/
def groupVisit (wlayer : ℕ → ℤ) (e : List ℕ) : List ℕ :=
  sortDesc wlayer e

/-- `WidgetGroup.events`: the widgets receive the snapshot in `__iter__`
order. -/
def groupEventsOrder (wlayer : ℕ → ℤ) (e : List ℕ) : List ℕ :=
  groupVisit wlayer e

/-- `WidgetGroup.render`: the widgets are painted in `__iter__` order. -/
def groupRenderOrder (wlayer : ℕ → ℤ) (e : List ℕ) : List ℕ :=
  groupVisit wlayer e

/-! ### Mouse button edges and scroll wheel (`engine/events.py`, `Mouse`) -/

/-- Python `bool` read as an integer, as in `current - last == 1`. -/
def boolInt (b : Bool) : ℤ :=
  if b then 1 else 0

/-- Per-button slice of the `Mouse` state: the exposed `press`/`release`
edge flags and `_temp` (the previous tick's raw hold state). -/
structure MouseButton where
  click : Bool
  release : Bool
  temp : Bool
deriving DecidableEq, Repr

/-- Initial state (events.py lines 45-48): no click, no release, `_temp`
copied from the all-`False` click array. -/
def mouseInit : MouseButton :=
  { click := false, release := false, temp := false }

/-- One tick of `Mouse.update` for one button (events.py lines 80-82):
`click = current - last == 1`, `release = current - last == -1`,
`_temp = hold`. -/
def mouse_update (st : MouseButton) (hold : Bool) : MouseButton :=
  { click := decide (boolInt hold - boolInt st.temp = 1)
    release := decide (boolInt hold - boolInt st.temp = -1)
    temp := hold }

/-- State after feeding a whole sequence of per-tick raw hold states. -/
def mouseRun (raws : List Bool) : MouseButton :=
  raws.foldl mouse_update mouseInit

/-- A raw event delivered to `Mouse.update`: a `MOUSEWHEEL` event with its
`y` delta, or anything else. -/
inductive RawEvent where
  | wheel (y : ℤ)
  | other
deriving DecidableEq, Repr

/-- The wheel loop of `Mouse.update` (events.py lines 68-71): `_wheel` is
reset to 0, then assigned `event.y` for each wheel event in order. -/
def wheel_update (events : List RawEvent) : ℤ :=
  events.foldl (fun w e => match e with | RawEvent.wheel y => y | RawEvent.other => w) 0

/-- Modelled from the spec: the claimed per-tick scroll value, "the
accumulated sum of the scroll deltas of all scroll events seen this tick". -/
def wheelSumSpec (events : List RawEvent) : ℤ :=
  (events.map (fun e => match e with | RawEvent.wheel y => y | RawEvent.other => 0)).sum

/-- The delta of the last wheel event of the tick, 0 when there is none. -/
def lastWheel (events : List RawEvent) : ℤ :=
  (events.filterMap
    (fun e => match e with | RawEvent.wheel y => some y | RawEvent.other => Option.none)).getLastD 0

/-! ### Sliders (`widgets.py`, `HorizontalSlider.value` / `VerticalSlider.value`)

Both sliders store the value in a register measured in pixels along the
track (`self.width` for the horizontal, `self.height` for the vertical
variant) and convert on the property boundary; float arithmetic is modelled
exactly over `ℚ`. -/

/-- A slider: the track length in pixels and the stored register value. -/
structure SliderState where
  track : ℚ
  reg : ℚ
deriving DecidableEq, Repr

/-- The `value` setter (widgets.py lines 205-207 and 235-237):
`register.value = min(max(val * track, 0), track)`. -/
def slider_set_value (st : SliderState) (v : ℚ) : SliderState :=
  { st with reg := min (max (v * st.track) 0) st.track }

/-- The `value` getter (widgets.py lines 201-203 and 231-233):
`register.value / track`. -/
def slider_value (st : SliderState) : ℚ :=
  st.reg / st.track

/-! ### NumericInput commit (`widgets.py`, `NumericInput` and `TextInput.deactivate`)

The committed text is a list of characters.  Python `float(...)` raising
`ValueError` is modelled by `Option`: a result of `Option.none` marks an
uncaught exception escaping the commit. -/

/-- The sign-stripping prefix of `is_numeric` (widgets.py lines 397-399):
`if value.startswith("-") or value.startswith("+"): value = value[1:]`. -/
def stripSign : List Char → List Char
  | [] => []
  | c :: cs => if c = '-' ∨ c = '+' then cs else c :: cs

/-- `value.replace(".", "")`: remove every dot. -/
def removeDots (s : List Char) : List Char :=
  s.filter (fun c => c ≠ '.')

/-- `NumericInput.is_numeric` (widgets.py lines 395-400): strip one leading
sign, delete all dots, then Python `str.isnumeric()` (nonempty, all digits;
the typeable alphabet is digits and `.`, `-`, `+`, on which `isnumeric`
coincides with an all-digits test). -/
def is_numeric (s : List Char) : Bool :=
  !(removeDots (stripSign s)).isEmpty && (removeDots (stripSign s)).all Char.isDigit

/-- Value of a digit string read in base 10. -/
def digitsVal (s : List Char) : ℕ :=
  s.foldl (fun a c => 10 * a + (c.toNat - Char.toNat '0')) 0

/-- Split a string at its first dot: the part before it and, when a dot
exists, the part after it. -/
def splitFirstDot : List Char → List Char × Option (List Char)
  | [] => ([], Option.none)
  | c :: cs =>
    if c = '.' then ([], some cs)
    else
      let r := splitFirstDot cs
      (c :: r.1, r.2)

/-- Python `float(s)` on the alphabet reachable through `NumericInput.type`
(digits, one optional leading sign, dots): `none` models `ValueError`. -/
def pyFloat (s : List Char) : Option ℚ :=
  let sgn : ℚ := match s with
    | c :: _ => if c = '-' then -1 else 1
    | [] => 1
  let t := stripSign s
  let r := splitFirstDot t
  match r.2 with
  | Option.none =>
    if !r.1.isEmpty && r.1.all Char.isDigit then some (sgn * digitsVal r.1) else Option.none
  | some fp =>
    if fp.contains '.' then Option.none
    else if (!r.1.isEmpty || !fp.isEmpty) && r.1.all Char.isDigit && fp.all Char.isDigit then
      some (sgn * ((digitsVal r.1 : ℚ) + (digitsVal fp : ℚ) / (10 ^ fp.length)))
    else Option.none

/-- Python `round` to an integer: round half to even. -/
def roundHalfEven (q : ℚ) : ℤ :=
  let f := ⌊q⌋
  if q - f < 1 / 2 then f
  else if 1 / 2 < q - f then f + 1
  else if f % 2 = 0 then f else f + 1

/-- Python `round(q, decimals)` on exact rationals. -/
def pyRound (q : ℚ) (decimals : ℕ) : ℚ :=
  (roundHalfEven (q * 10 ^ decimals) : ℚ) / 10 ^ decimals

/-- `NumericInput.format` (widgets.py lines 402-407): clamp to the configured
limits, then round to the configured decimals.  The argument is the already
parsed `float(value)`; parsing happens before in `numeric_set_value`. -/
def format (limits : Option ℚ × Option ℚ) (decimals : ℕ) (q : ℚ) : ℚ :=
  let v1 := match limits.1 with
    | some lo => max lo q
    | Option.none => q
  let v2 := match limits.2 with
    | some hi => min hi v1
    | Option.none => v1
  pyRound v2 decimals

/-- The `NumericInput.value` setter (widgets.py lines 417-423) applied to a
committed string: `if new_value == "": reg = 0.0` then
`if is_numeric(new_value): reg = format(new_value)` (where `format` calls
`float(new_value)`, which raises on strings such as `"1.2.3"`).  Returns the
register value after the call. -/
def numeric_set_value (prev : ℚ) (s : List Char) (limits : Option ℚ × Option ℚ)
    (decimals : ℕ) : Option ℚ :=
  let afterEmpty : ℚ := if s.isEmpty then 0 else prev
  if is_numeric s then
    match pyFloat s with
    | some q => some (format limits decimals q)
    | Option.none => Option.none
  else some afterEmpty

/-- Committing through `TextInput.deactivate` (widgets.py lines 339-343):
`if self._visible_value: self.value = self._visible_value` — the setter runs
only when the visible text is nonempty.  Returns the committed register
value. -/
def commitNumeric (prev : ℚ) (visible : List Char) (limits : Option ℚ × Option ℚ)
    (decimals : ℕ) : Option ℚ :=
  if visible.isEmpty then some prev
  else numeric_set_value prev visible limits decimals

/-! ### StateMachine (`engine/state_machine.py`)

Hook invocations are recorded in an event log so that their order is
observable; each transition returns the log entries it appends, oldest
first. -/

/-- A hook invocation: `entry_actions` or `exit_actions` of the named state. -/
inductive SMHook where
  | enter (name : String)
  | leave (name : String)
deriving DecidableEq, Repr

/-- State of `StateMachine`: the registered state names, `_active` and
`_last`. -/
structure StateMachine where
  states : List String
  active : String
  last : String
deriving DecidableEq, Repr

/-- `StateMachine.__init__` (state_machine.py lines 33-42): register the
initial state, set `_active` and `_last` to it, then call its
`entry_actions()` once.  Returns the machine and the hook log. -/
def mkStateMachine (initial : String) : StateMachine × List SMHook :=
  ({ states := [initial], active := initial, last := initial }, [SMHook.enter initial])

/-- `StateMachine.add_state` (state_machine.py lines 44-46). -/
def add_state (m : StateMachine) (names : List String) : StateMachine :=
  { m with states := m.states ++ names }

/-- The `current_state` setter (state_machine.py lines 56-61): fire
`exit_actions` on the old state, record it as `_last`, switch `_active`,
fire `entry_actions` on the new state.  `self._states[name]` raises a
`KeyError` on an unregistered name, modelled as `Option.none`. -/
def set_current_state (m : StateMachine) (name : String) :
    Option (StateMachine × List SMHook) :=
  if name ∈ m.states then
    some ({ m with last := m.active, active := name },
      [SMHook.leave m.active, SMHook.enter name])
  else Option.none

/-- `StateMachine.update_states` (state_machine.py lines 63-65), with the
result of the active state's `check_conditions()` passed in. -/
def update_states (m : StateMachine) (check : Option String) :
    Option (StateMachine × List SMHook) :=
  match check with
  | Option.none => some (m, [])
  | some t => set_current_state m t

/-! ## Helper lemmas -/

theorem mouseRun_temp (raws : List Bool) :
    (mouseRun raws).temp = raws.getLastD false := by
  induction raws using List.reverseRecOn with
  | nil => rfl
  | append_singleton l r _ =>
    simp [mouseRun, List.foldl_append, mouse_update]

theorem wheel_foldl_eq_getLastD (events : List RawEvent) (a : ℤ) :
    events.foldl
        (fun w e => match e with | RawEvent.wheel y => y | RawEvent.other => w) a =
      (events.filterMap
        (fun e => match e with
          | RawEvent.wheel y => some y
          | RawEvent.other => Option.none)).getLastD a := by
  induction events generalizing a with
  | nil => rfl
  | cons e rest ih =>
    cases e with
    | wheel y =>
      rw [List.foldl_cons, List.filterMap_cons, ih, List.getLastD_cons]
    | other =>
      rw [List.foldl_cons, List.filterMap_cons, ih]

theorem applyOp_focus_card (st : Gui) (op : GOp) (h : st.focused.card ≤ 1) :
    (applyOp st op).focused.card ≤ 1 := by
  cases op with
  | focus item overwrite =>
    simp only [applyOp, focus_widget]
    split
    · simp
    · exact h
  | release item =>
    simp only [applyOp, release_widget]
    split
    · exact le_trans (Finset.card_le_card (Finset.erase_subset _ _)) h
    · exact h
  | activate groups => simpa only [applyOp, activate_group] using h
  | deactivate groups => simpa only [applyOp, deactivate_group] using h

/-- A concrete `Gui` state for witnesses: groups 0 and 1 active, widget 5 a
member of group 0, nothing focused. -/
def guiExample : Gui :=
  { activeGroups := {0, 1}
    members := fun g => if g = 0 then {5} else ∅
    glayer := fun g => (g : ℤ)
    wlayer := fun _ => 0
    focused := ∅ }

/-- A concrete call sequence for the C10 witness. -/
def gopsExample : List GOp :=
  [GOp.focus (GItem.group 0) true, GOp.focus (GItem.group 1) false,
   GOp.release (GItem.group 0), GOp.activate {2},
   GOp.focus (GItem.widget 5) false, GOp.deactivate {0}]

theorem lookupName_append_of_eq_none (t l : List (String × ℕ)) (n : String)
    (h : lookupName t n = Option.none) :
    lookupName (t ++ l) n = lookupName l n := by
  induction t with
  | nil => rfl
  | cons p ps ih =>
    simp only [lookupName] at h
    by_cases hp : p.1 = n
    · rw [if_pos hp] at h; exact absurd h (by simp)
    · rw [if_neg hp] at h
      rw [List.cons_append]
      simp only [lookupName, if_neg hp]
      exact ih h

theorem lookupName_mem (n : String) (i : ℕ) :
    ∀ t : List (String × ℕ), lookupName t n = some i → ∃ p ∈ t, p.2 = i := by
  intro t
  induction t with
  | nil => intro h; simp [lookupName] at h
  | cons p ps ih =>
    intro h
    simp only [lookupName] at h
    by_cases hp : p.1 = n
    · rw [if_pos hp] at h
      exact ⟨p, List.mem_cons_self p ps, by injection h⟩
    · rw [if_neg hp] at h
      obtain ⟨q, hq, hq2⟩ := ih h
      exact ⟨q, List.mem_cons_of_mem p hq, hq2⟩

theorem lookupName_lt_of_wf (st : RegTable) (n : String) (i : ℕ) (hwf : RegWF st)
    (h : lookupName st.table n = some i) : i < st.heap.length := by
  obtain ⟨p, hp, hp2⟩ := lookupName_mem n i st.table h
  exact hp2 ▸ hwf p hp

theorem readCell_writeCell_self (st : RegTable) (i : ℕ) (w : PyVal)
    (h : i < st.heap.length) : readCell (writeCell st i w) i = w := by
  rw [readCell, writeCell, List.getD_eq_getElem?_getD, List.getElem?_set_self h]
  rfl

/-- The id returned by `register` is the one the name maps to afterwards. -/
theorem lookupName_register (st : RegTable) (n : String) (v : PyVal) :
    lookupName (register st (some n) v).2.table n = some (register st (some n) v).1 := by
  cases hl : lookupName st.table n with
  | none =>
    simp only [register, hl]
    rw [lookupName_append_of_eq_none st.table _ n hl]
    simp [lookupName]
  | some i =>
    by_cases hv : readCell st i = PyVal.none
    · simp only [register, hl, if_pos hv]
      exact hl
    · simp only [register, hl, if_neg hv]

/-- The id returned by `register` is a valid heap index of the resulting
state. -/
theorem register_id_lt (st : RegTable) (n : String) (v : PyVal) (hwf : RegWF st) :
    (register st (some n) v).1 < (register st (some n) v).2.heap.length := by
  cases hl : lookupName st.table n with
  | none => simp [register, hl]
  | some i =>
    have hi := lookupName_lt_of_wf st n i hwf hl
    by_cases hv : readCell st i = PyVal.none
    · simp only [register, hl, if_pos hv, writeCell]
      simpa using hi
    · simpa only [register, hl, if_neg hv] using hi

theorem register_wf (st : RegTable) (name : Option String) (v : PyVal) (hwf : RegWF st) :
    RegWF (register st name v).2 := by
  cases name with
  | none =>
    intro p hp
    simp only [register] at hp ⊢
    exact lt_of_lt_of_le (hwf p hp) (by simp)
  | some n =>
    cases hl : lookupName st.table n with
    | none =>
      intro p hp
      simp only [register, hl, List.mem_append, List.mem_singleton] at hp
      simp only [register, hl]
      rcases hp with hp | hp
      · exact lt_of_lt_of_le (hwf p hp) (by simp)
      · simp [hp]
    | some i =>
      by_cases hv : readCell st i = PyVal.none
      · simp only [register, hl, if_pos hv]
        intro p hp
        rw [writeCell] at hp ⊢
        simpa using hwf p hp
      · simpa only [register, hl, if_neg hv] using hwf

/-! ## Claims -/

/-- C1: `focus_widget(item, overwrite)` replaces the entire focus set with
`{item}` when (the focus set is empty or `overwrite` is set) and `item` is
currently active, and leaves the focus set unchanged in every other case;
consequently after `focus(A, overwrite=True)` followed by `focus(B)` without
overwrite while `A` holds focus, the focus holder remains `A`. -/
theorem focus_widget_exclusive (st : Gui) (item : GItem) (overwrite : Bool) :
    (((st.focused = ∅ ∨ overwrite = true) ∧ is_active st item) →
        (focus_widget st item overwrite).focused = {item})
    ∧ (¬((st.focused = ∅ ∨ overwrite = true) ∧ is_active st item) →
        (focus_widget st item overwrite).focused = st.focused)
    ∧ (∀ A B : GItem, is_active st A →
        (focus_widget (focus_widget st A true) B false).focused = {A}) := by
  refine ⟨fun h => ?_, fun h => ?_, fun A B hA => ?_⟩
  · rw [focus_widget, if_pos h]
  · rw [focus_widget, if_neg h]
  · have h1 : (focus_widget st A true).focused = {A} := by
      rw [focus_widget, if_pos ⟨Or.inr rfl, hA⟩]
    have h2 : ¬(((focus_widget st A true).focused = ∅ ∨ (false : Bool) = true)
        ∧ is_active (focus_widget st A true) B) := by
      rw [h1]
      rintro ⟨hempty | hbool, -⟩
      · exact Finset.singleton_ne_empty A hempty
      · exact Bool.false_ne_true hbool
    rw [focus_widget, if_neg h2, h1]

/-- Witness for C1 on a concrete state: group 0 is active, and after
`focus(group 0, overwrite=True)` then `focus(group 1)` the holder is still
group 0. -/
theorem focus_widget_exclusive_witness :
    is_active guiExample (GItem.group 0)
    ∧ (focus_widget (focus_widget guiExample (GItem.group 0) true)
        (GItem.group 1) false).focused = {GItem.group 0} :=
  ⟨by decide,
    (focus_widget_exclusive guiExample (GItem.group 1) false).2.2
      (GItem.group 0) (GItem.group 1) (by decide)⟩

/-- C2: one `Gui.events` pass delivers the snapshot exactly to the focus set
when it is non-empty and exactly to the active groups otherwise, each
receiver exactly once, visited in descending layer order (`e` is the
enumeration of the target set that Python's set iteration produces). -/
theorem gui_events_dispatch (st : Gui) (e : List GItem) (hnd : e.Nodup)
    (he : e.toFinset = dispatchTargets st) :
    (guiEventsOrder st e).toFinset =
        (if st.focused.Nonempty then st.focused else st.activeGroups.image GItem.group)
    ∧ (guiEventsOrder st e).Nodup
    ∧ (guiEventsOrder st e).Sorted (fun a b => itemLayer st b ≤ itemLayer st a) := by
  have hperm : (guiEventsOrder st e).Perm e := sortDesc_perm _ e
  refine ⟨?_, hperm.nodup_iff.mpr hnd, sortDesc_sorted _ e⟩
  rw [List.toFinset_eq_of_perm _ _ hperm, he, dispatchTargets]

/-- Witness for C2 on a concrete state with a non-empty focus set. -/
theorem gui_events_dispatch_witness :
    ([GItem.group 0, GItem.widget 5] : List GItem).Nodup
    ∧ ([GItem.group 0, GItem.widget 5] : List GItem).toFinset =
        dispatchTargets { guiExample with focused := {GItem.group 0, GItem.widget 5} }
    ∧ (guiEventsOrder { guiExample with focused := {GItem.group 0, GItem.widget 5} }
          [GItem.group 0, GItem.widget 5]).toFinset =
        (if ({GItem.group 0, GItem.widget 5} : Finset GItem).Nonempty then
            ({GItem.group 0, GItem.widget 5} : Finset GItem)
          else Finset.image GItem.group {0, 1}) :=
  ⟨by decide, by decide,
    (gui_events_dispatch { guiExample with focused := {GItem.group 0, GItem.widget 5} }
      [GItem.group 0, GItem.widget 5] (by decide) (by decide)).1⟩

/-- C3: `Gui.register(name, default)` creates and stores a new cell holding
the default when the name is unknown, adopts the default when the existing
cell holds `None`, returns the existing cell untouched otherwise; two calls
with the same name return the same cell (the same heap id), so a non-null
value written through one returned cell is observed by a later read through
the cell obtained by a later call under that name. -/
theorem register_get_or_create (st : RegTable) (n : String) (v v' w : PyVal)
    (hwf : RegWF st) :
    (lookupName st.table n = Option.none →
        (register st (some n) v).1 = st.heap.length
        ∧ readCell (register st (some n) v).2 (register st (some n) v).1 = v
        ∧ lookupName (register st (some n) v).2.table n = some (register st (some n) v).1)
    ∧ (∀ i, lookupName st.table n = some i → readCell st i = PyVal.none →
        (register st (some n) v).1 = i ∧ readCell (register st (some n) v).2 i = v)
    ∧ (∀ i, lookupName st.table n = some i → readCell st i ≠ PyVal.none →
        register st (some n) v = (i, st))
    ∧ (register (register st (some n) v).2 (some n) v').1 = (register st (some n) v).1
    ∧ (w ≠ PyVal.none →
        readCell
          (register (writeCell (register st (some n) v).2 (register st (some n) v).1 w)
            (some n) v').2
          (register (writeCell (register st (some n) v).2 (register st (some n) v).1 w)
            (some n) v').1 = w) := by
  refine ⟨fun hl => ⟨?_, ?_, lookupName_register st n v⟩,
    fun i hl hv => ⟨?_, ?_⟩, fun i hl hv => ?_, ?_, fun hw => ?_⟩
  · simp [register, hl]
  · simp only [register, hl]
    rw [readCell, List.getD_eq_getElem?_getD, List.getElem?_concat_length]
    rfl
  · simp [register, hl, if_pos hv]
  · simp only [register, hl, if_pos hv]
    exact readCell_writeCell_self st i v (lookupName_lt_of_wf st n i hwf hl)
  · simp [register, hl, if_neg hv]
  · rcases hreg : register st (some n) v with ⟨i1, st1⟩
    have hlr := lookupName_register st n v
    rw [hreg] at hlr
    by_cases hv2 : readCell st1 i1 = PyVal.none
    · simp only [register, hlr, if_pos hv2]
    · simp only [register, hlr, if_neg hv2]
  · rcases hreg : register st (some n) v with ⟨i1, st1⟩
    have hlr := lookupName_register st n v
    rw [hreg] at hlr
    have hlt : i1 < st1.heap.length := by
      have := register_id_lt st n v hwf
      rw [hreg] at this
      exact this
    have hread : readCell (writeCell st1 i1 w) i1 = w :=
      readCell_writeCell_self st1 i1 w hlt
    have hlr2 : lookupName (writeCell st1 i1 w).table n = some i1 := hlr
    have hne : readCell (writeCell st1 i1 w) i1 ≠ PyVal.none := by
      rw [hread]; exact hw
    simp only [register, hlr2, if_neg hne]
    exact hread

/-- Witness for C3 on a concrete empty register table: two lookups of the
name `x` return the same cell, and a write of 7 through it is read back. -/
theorem register_get_or_create_witness :
    RegWF { heap := [], table := [] }
    ∧ PyVal.num 7 ≠ PyVal.none
    ∧ readCell
        (register
          (writeCell
            (register { heap := [], table := [] } (some "x") (PyVal.num 3)).2
            (register { heap := [], table := [] } (some "x") (PyVal.num 3)).1
            (PyVal.num 7))
          (some "x") (PyVal.num 5)).2
        (register
          (writeCell
            (register { heap := [], table := [] } (some "x") (PyVal.num 3)).2
            (register { heap := [], table := [] } (some "x") (PyVal.num 3)).1
            (PyVal.num 7))
          (some "x") (PyVal.num 5)).1 = PyVal.num 7 :=
  ⟨by decide, by decide,
    (register_get_or_create { heap := [], table := [] } "x"
      (PyVal.num 3) (PyVal.num 5) (PyVal.num 7) (by decide)).2.2.2.2 (by decide)⟩

/-- C4: for every sequence of per-tick raw hold states of one button, after
each tick's `Mouse.update` the press flag is set exactly on a 0-to-1
transition since the previous tick, the release flag exactly on a 1-to-0
transition, and never both in the same tick. -/
theorem mouse_edge_flags (raws : List Bool) (r : Bool) :
    (mouseRun (raws ++ [r])).click = (r && !(raws.getLastD false))
    ∧ (mouseRun (raws ++ [r])).release = (!r && raws.getLastD false)
    ∧ ¬((mouseRun (raws ++ [r])).click = true
        ∧ (mouseRun (raws ++ [r])).release = true) := by
  have hstep : mouseRun (raws ++ [r]) = mouse_update (mouseRun raws) r := by
    simp [mouseRun, List.foldl_append]
  have ht := mouseRun_temp raws
  rw [hstep, ← ht]
  cases r <;> cases htemp : (mouseRun raws).temp <;>
    simp [mouse_update, boolInt, htemp]

/-- C5: for a slider with positive track length, writing `v` and reading back
returns `v` clamped to `[0, 1]` (exactly `v` for `v` in range; the float
arithmetic is modelled exactly over `ℚ`), and the stored register value
always equals the read ratio times the track length. -/
theorem slider_value_round_trip (st : SliderState) (v : ℚ) (h : 0 < st.track) :
    slider_value (slider_set_value st v) = min (max v 0) 1
    ∧ (0 ≤ v → v ≤ 1 → slider_value (slider_set_value st v) = v)
    ∧ st.reg = slider_value st * st.track := by
  have ht : st.track ≠ 0 := ne_of_gt h
  have ht' : (0 : ℚ) ≤ st.track := le_of_lt h
  have hclamp : slider_value (slider_set_value st v) = min (max v 0) 1 := by
    rw [slider_value, slider_set_value]
    calc min (max (v * st.track) 0) st.track / st.track
        = min (max v 0 * st.track) (1 * st.track) / st.track := by
          rw [max_mul_of_nonneg v 0 ht', zero_mul, one_mul]
      _ = min (max v 0) 1 * st.track / st.track := by
          rw [min_mul_of_nonneg _ _ ht']
      _ = min (max v 0) 1 := mul_div_cancel_right₀ _ ht
  refine ⟨hclamp, fun h0 h1 => ?_, (div_mul_cancel₀ st.reg ht).symm⟩
  rw [hclamp, max_eq_left h0, min_eq_left h1]

/-- Witness for C5 at track length 2 and `v = 1/2`. -/
theorem slider_value_round_trip_witness :
    (0 : ℚ) < (SliderState.mk 2 5).track
    ∧ slider_value (slider_set_value (SliderState.mk 2 5) (1 / 2)) =
        min (max (1 / 2 : ℚ) 0) 1 :=
  ⟨by norm_num, (slider_value_round_trip (SliderState.mk 2 5) (1 / 2) (by norm_num)).1⟩

/-- C6: the commit path of `NumericInput` with limits `(0, 10)`: committing
"15" clamps to 10 and "-5" to 0, the malformed "." is rejected silently
keeping the previous value 5; but committing the empty text keeps the
previous value 5 instead of the specified 0 — the `if self._visible_value`
guard of `TextInput.deactivate` skips the `NumericInput.value` setter whose
own `new_value == ""` branch would store 0.0 — and committing "1.2.3"
passes `is_numeric` yet makes `float()` raise instead of being rejected
silently. -/
theorem numeric_commit_behavior :
    commitNumeric 0 ['1', '5'] (some 0, some 10) 2 = some 10
    ∧ commitNumeric 5 ['-', '5'] (some 0, some 10) 2 = some 0
    ∧ commitNumeric 5 ['.'] (some 0, some 10) 2 = some 5
    ∧ commitNumeric 5 [] (some 0, some 10) 2 = some 5
    ∧ (5 : ℚ) ≠ 0
    ∧ commitNumeric 5 ['1', '.', '2', '.', '3'] (some 0, some 10) 2 = Option.none := by
  refine ⟨?_, ?_, ?_, ?_, by norm_num, ?_⟩
  · simp +decide [commitNumeric, numeric_set_value, is_numeric, removeDots, stripSign,
      pyFloat, splitFirstDot, digitsVal, format, List.filter, List.all]
    norm_num [pyRound, roundHalfEven]
  · simp +decide [commitNumeric, numeric_set_value, is_numeric, removeDots, stripSign,
      pyFloat, splitFirstDot, digitsVal, format, List.filter, List.all]
    norm_num [pyRound, roundHalfEven]
  · simp +decide [commitNumeric, numeric_set_value, is_numeric, removeDots, stripSign,
      List.filter]
  · rfl
  · simp +decide [commitNumeric, numeric_set_value, is_numeric, removeDots, stripSign,
      pyFloat, splitFirstDot, List.filter, List.all]

/-- C9: constructing a state machine with initial state `S` fires `S`'s
enter-hook exactly once before any tick; when a tick's transition check on
the active state yields a registered name `T`, the old state's exit-hook
fires, then the machine records the old state as previous, switches to `T`,
and fires `T`'s enter-hook, in that order; immediately afterwards
`current_state` is `T` and `last_state` is the old state. -/
theorem state_machine_transition_order (S : String) (m : StateMachine) (T : String)
    (hT : T ∈ m.states) :
    (mkStateMachine S).2 = [SMHook.enter S]
    ∧ (mkStateMachine S).2.count (SMHook.enter S) = 1
    ∧ ∃ m', update_states m (some T) =
          some (m', [SMHook.leave m.active, SMHook.enter T])
        ∧ m'.active = T ∧ m'.last = m.active := by
  refine ⟨rfl, by simp [mkStateMachine], ?_⟩
  refine ⟨{ m with last := m.active, active := T }, ?_, rfl, rfl⟩
  simp [update_states, set_current_state, hT]

/-- Witness for C9 on a machine with states `a` (active) and `b`. -/
theorem state_machine_transition_order_witness :
    "b" ∈ (StateMachine.mk ["a", "b"] "a" "a").states
    ∧ ∃ m', update_states (StateMachine.mk ["a", "b"] "a" "a") (some "b") =
          some (m', [SMHook.leave "a", SMHook.enter "b"])
        ∧ m'.active = "b" ∧ m'.last = "a" :=
  ⟨by decide,
    (state_machine_transition_order "a" (StateMachine.mk ["a", "b"] "a" "a") "b"
      (by decide)).2.2⟩

/-- C7 counterexample: two equal-layer widgets inserted in the order 0 then 1
are stored in an unordered set; the enumeration `[1, 0]` of that set is
visited as `[1, 0]`, not in the claimed insertion order `[0, 1]`. -/
theorem group_order_counterexample :
    ([1, 0] : List ℕ).toFinset = ([0, 1] : List ℕ).toFinset
    ∧ groupVisit (fun _ => 0) [1, 0] = [1, 0]
    ∧ ([1, 0] : List ℕ) ≠ [0, 1] := by decide

/-- C7 amended: the input-dispatch pass and the render pass visit the same
ordering, a permutation of the members sorted by descending layer; equal
layers keep the (unspecified) set-enumeration order, not insertion order. -/
theorem group_order_sorted (wlayer : ℕ → ℤ) (e : List ℕ) :
    groupEventsOrder wlayer e = groupRenderOrder wlayer e
    ∧ (groupEventsOrder wlayer e).Perm e
    ∧ (groupEventsOrder wlayer e).Sorted (fun a b => wlayer b ≤ wlayer a) :=
  ⟨rfl, sortDesc_perm _ e, sortDesc_sorted _ e⟩

/-- C8 counterexample: two wheel events of delta 1 in one tick leave the
exposed scroll value at 1 (the last delta), not at the claimed accumulated
sum 2. -/
theorem scroll_counterexample :
    wheel_update [RawEvent.wheel 1, RawEvent.wheel 1] = 1
    ∧ wheelSumSpec [RawEvent.wheel 1, RawEvent.wheel 1] = 2
    ∧ (1 : ℤ) ≠ 2 := by decide

/-- C8 amended: each tick the exposed scroll value is reset to 0 and then
equals the delta of the last scroll event seen this tick (0 when there is
none), not the sum of all deltas. -/
theorem scroll_last_event (events : List RawEvent) :
    wheel_update events = lastWheel events ∧ wheel_update [] = 0 :=
  ⟨wheel_foldl_eq_getLastD events 0, rfl⟩

/-- C10: starting from an empty focus set, any sequence of `focus_widget`,
`release_widget`, `activate_group` and `deactivate_group` calls leaves the
focus set with at most one element. -/
theorem focus_card_le_one (st : Gui) (ops : List GOp) (h : st.focused = ∅) :
    (applyOps st ops).focused.card ≤ 1 := by
  have hcard : st.focused.card ≤ 1 := by rw [h]; simp
  clear h
  induction ops generalizing st with
  | nil => exact hcard
  | cons op rest ih => exact ih (applyOp st op) (applyOp_focus_card st op hcard)

/-- Witness for C10 on a concrete state and call sequence. -/
theorem focus_card_le_one_witness :
    guiExample.focused = ∅ ∧ (applyOps guiExample gopsExample).focused.card ≤ 1 :=
  ⟨by decide, focus_card_le_one guiExample gopsExample (by decide)⟩

end PyGameEngine
